import Mathlib

/-!
Verification of the presence-analyzer core (`src/presence_analyzer/utils.py`)
against its natural-language specification.

The Python module is shallowly embedded: times and dates become explicit
structures, Python dicts become association lists (insertion-ordered, keys
unique, assignment replaces in place exactly as `dict.__setitem__` does),
`datetime.strptime` becomes explicit format-checking parsers, floats produced
by `mean` become exact rationals, and the time-expiring memoization decorator
becomes explicit state passing over the cache store.
-/

namespace PresenceAnalyzer

/-- A Python `datetime.time` value as produced by `strptime('%H:%M:%S')`:
hour 0-23, minute 0-59, second 0-59 (ranges are enforced by the parser,
not by the structure). -/
structure PTime where
  hour : Nat
  minute : Nat
  second : Nat
deriving DecidableEq, Repr

/-- A Python `datetime.date` value as produced by `strptime('%Y-%m-%d')`:
proleptic Gregorian calendar date (validity enforced by the parser). -/
structure PDate where
  year : Nat
  month : Nat
  day : Nat
deriving DecidableEq, Repr

/-- Gregorian leap-year rule used by Python's `datetime` module. -/
def isLeap (y : Nat) : Bool :=
  (y % 4 == 0 && y % 100 != 0) || y % 400 == 0

/-- Number of days in month `m` of year `y` (Python `calendar.monthrange`). -/
def daysInMonth (y m : Nat) : Nat :=
  if m = 2 then (if isLeap y then 29 else 28)
  else if m = 4 ∨ m = 6 ∨ m = 9 ∨ m = 11 then 30
  else 31

/-- Days in year `y` before the first day of month `m`. -/
def daysBeforeMonth (y m : Nat) : Nat :=
  (List.range (m - 1)).foldl (fun acc k => acc + daysInMonth y (k + 1)) 0

/-- Python `date.toordinal`: day 1 is 0001-01-01 of the proleptic
Gregorian calendar. -/
def toordinal (d : PDate) : Nat :=
  let y := d.year - 1
  365 * y + y / 4 - y / 100 + y / 400 + daysBeforeMonth d.year d.month + d.day

/-- Python `date.weekday`: Monday = 0 .. Sunday = 6.  Day ordinal 1
(0001-01-01) is a Monday. -/
def weekday (d : PDate) : Nat :=
  (toordinal d + 6) % 7

/-- `seconds_since_midnight` from utils.py:
`time_to_calc.hour * 3600 + time_to_calc.minute * 60 + time_to_calc.second`. -/
def seconds_since_midnight (time_to_calc : PTime) : Int :=
  time_to_calc.hour * 3600 + time_to_calc.minute * 60 + time_to_calc.second

/-- `interval` from utils.py:
`seconds_since_midnight(end) - seconds_since_midnight(start)`. -/
def interval (start end_ : PTime) : Int :=
  seconds_since_midnight end_ - seconds_since_midnight start

/-- `mean` from utils.py: `float(sum(items)) / len(items)` for a non-empty
list, else `0`.  Python floats are modelled by exact rationals. -/
def mean (items : List Int) : ℚ :=
  if items.length > 0 then (items.sum : ℚ) / (items.length : ℚ) else 0

/-- The `{'start': ..., 'end': ...}` record stored per (user, date). -/
structure PresenceRec where
  start : PTime
  end_ : PTime
deriving DecidableEq, Repr

/-- Lookup in a Python dict modelled as an insertion-ordered association
list with unique keys (`d[k]` / `k in d`). -/
def lookupA {κ α : Type} [DecidableEq κ] : List (κ × α) → κ → Option α
  | [], _ => none
  | (k₁, v) :: rest, k => if k₁ = k then some v else lookupA rest k

/-- Python dict assignment `d[k] = v`: replace the value at `k` in place,
or append a new binding if `k` is absent. -/
def insertA {κ α : Type} [DecidableEq κ] : List (κ × α) → κ → α → List (κ × α)
  | [], k, v => [(k, v)]
  | (k₁, v₁) :: rest, k, v =>
      if k₁ = k then (k, v) :: rest else (k₁, v₁) :: insertA rest k v

/-- Number of bindings a dict-as-list holds for key `k`. -/
def countKey {κ α : Type} [DecidableEq κ] (c : List (κ × α)) (k : κ) : Nat :=
  c.countP (fun p => decide (p.1 = k))

/-- Split a character list at every occurrence of `sep`, the character-level
behaviour of Python `str.split(sep)` for a one-character separator (which is
how `strptime` tears `'%Y-%m-%d'` and `'%H:%M:%S'` inputs apart). -/
def splitOnChar (sep : Char) : List Char → List (List Char)
  | [] => [[]]
  | c :: rest =>
    match splitOnChar sep rest with
    | [] => [[]]
    | g :: gs => if c = sep then [] :: g :: gs else (c :: g) :: gs

/-- Value of a run of decimal digits. -/
def digitsVal (cs : List Char) : Nat :=
  cs.foldl (fun n c => n * 10 + (c.toNat - 48)) 0

/-- A run of decimal digits of length between `minLen` and `maxLen`, as
matched by one `strptime` format directive; returns its value. -/
def parseFixedNat (cs : List Char) (minLen maxLen : Nat) : Option Nat :=
  if minLen ≤ cs.length ∧ cs.length ≤ maxLen ∧ cs.all Char.isDigit then
    some (digitsVal cs)
  else
    none

/-- Python `int(s)` on a CSV field, modelled for optionally signed digit
strings (the only shapes the attendance source can carry). -/
def parseIntPy (s : String) : Option Int :=
  match s.data with
  | '-' :: rest =>
      if rest.length > 0 ∧ rest.all Char.isDigit then
        some (-(digitsVal rest : Int))
      else none
  | '+' :: rest =>
      if rest.length > 0 ∧ rest.all Char.isDigit then
        some (digitsVal rest : Int)
      else none
  | cs =>
      if cs.length > 0 ∧ cs.all Char.isDigit then
        some (digitsVal cs : Int)
      else none

/-- Python `datetime.strptime(s, '%Y-%m-%d').date()`: `%Y` is exactly four
digits, `%m` and `%d` are one or two digits; the `datetime` constructor then
requires year ≥ 1, 1 ≤ month ≤ 12 and a day valid for that month. -/
def parseDate (s : String) : Option PDate :=
  match splitOnChar '-' s.data with
  | [ys, ms, ds] =>
    match parseFixedNat ys 4 4, parseFixedNat ms 1 2, parseFixedNat ds 1 2 with
    | some y, some m, some d =>
        if 1 ≤ y ∧ 1 ≤ m ∧ m ≤ 12 ∧ 1 ≤ d ∧ d ≤ daysInMonth y m then
          some ⟨y, m, d⟩
        else
          none
    | _, _, _ => none
  | _ => none

/-- Python `datetime.strptime(s, '%H:%M:%S').time()`: `%H`, `%M`, `%S` are
one or two digits; the `datetime` constructor requires hour ≤ 23,
minute ≤ 59, second ≤ 59. -/
def parseTime (s : String) : Option PTime :=
  match splitOnChar ':' s.data with
  | [hs, ms, ss] =>
    match parseFixedNat hs 1 2, parseFixedNat ms 1 2, parseFixedNat ss 1 2 with
    | some h, some m, some sec =>
        if h ≤ 23 ∧ m ≤ 59 ∧ sec ≤ 59 then some ⟨h, m, sec⟩ else none
    | _, _, _ => none
  | _ => none

/-- The per-user presence mapping: date → {start, end}. -/
abbrev UserDays : Type := List (PDate × PresenceRec)

/-- The full attendance mapping built by `get_data`: user id → date map. -/
abbrev DataMap : Type := List (Int × List (PDate × PresenceRec))

/-- Loop state of `get_data`'s row loop: the dict under construction plus
the current values of the local variables `user_id`, `date`, `start`, `end`
(`none` = not yet assigned on any iteration). -/
structure GdState where
  data : DataMap
  user_id : Option Int
  date : Option PDate
  start : Option PTime
  end_ : Option PTime
deriving DecidableEq

/-- One iteration of `get_data`'s row loop (utils.py lines 92-105).  A row
with ≠ 4 fields is skipped.  Otherwise the four parses run in order inside
`try`; the first failure raises, is caught, and leaves that variable and all
later ones at their previous values.  The store
`data.setdefault(user_id, {})[date] = {'start': start, 'end': end}` then runs
unconditionally (there is no `continue` in the `except` branch); if any of
the four variables was never assigned it raises an uncaught
`UnboundLocalError`, aborting the whole load. -/
def gdStep (st : GdState) (row : List String) : Except String GdState :=
  if row.length ≠ 4 then
    .ok st
  else
    let vars : Option Int × Option PDate × Option PTime × Option PTime :=
      match parseIntPy (row.getD 0 "") with
      | none => (st.user_id, st.date, st.start, st.end_)
      | some u =>
        match parseDate (row.getD 1 "") with
        | none => (some u, st.date, st.start, st.end_)
        | some d =>
          match parseTime (row.getD 2 "") with
          | none => (some u, some d, st.start, st.end_)
          | some s =>
            match parseTime (row.getD 3 "") with
            | none => (some u, some d, some s, st.end_)
            | some e => (some u, some d, some s, some e)
    match vars with
    | (some u, some d, some s, some e) =>
        .ok { data := insertA st.data u
                (insertA ((lookupA st.data u).getD []) d ⟨s, e⟩),
              user_id := some u, date := some d, start := some s,
              end_ := some e }
    | _ => .error "UnboundLocalError"

/-- `get_data` from utils.py applied to the parsed CSV rows: fold the row
loop over the file and return the accumulated dict (or the uncaught
exception that aborts the load). -/
def get_data (rows : List (List String)) : Except String DataMap := do
  let st ← rows.foldlM gdStep ⟨[], none, none, none, none⟩
  return st.data

/-- Server connection data read from the XML `server` element:
`protocol`, `host`, `port` text children. -/
structure ServerInfo where
  protocol : String
  host : String
  port : String
deriving DecidableEq, Repr

/-- One user element of the XML `users` node: integer-parsed `id` attribute
plus `name` and `avatar` text children. -/
structure XmlUser where
  id : Int
  name : String
  avatar : String
deriving DecidableEq, Repr

/-- The `{'avatar': ..., 'name': ...}` record built per user. -/
structure UserEntry where
  avatar : String
  name : String
deriving DecidableEq, Repr

/-- The avatar URL format string
`'{protocol}://{serv}:{port}{url}'.format(...)` from `get_data_xml`. -/
def avatarFor (server : ServerInfo) (u : XmlUser) : String :=
  server.protocol ++ "://" ++ server.host ++ ":" ++ server.port ++ u.avatar

/-- `get_data_xml` from utils.py applied to an already well-formed parsed
document: for each user element, store `{avatar URL, name}` under the
integer-parsed id attribute. -/
def get_data_xml (server : ServerInfo) (users : List XmlUser) :
    List (Int × UserEntry) :=
  users.foldl (fun result u =>
    insertA result u.id ⟨avatarFor server u, u.name⟩) []

/-- The initial `result = [[], [], [], [], [], [], []]` of
`group_by_weekday`: one list for every day in the week. -/
def emptyWeek : List (List Int) := [[], [], [], [], [], [], []]

/-- One iteration of `group_by_weekday`'s loop:
`result[date.weekday()].append(interval(start, end))`. -/
def gbwStep (result : List (List Int)) (p : PDate × PresenceRec) :
    List (List Int) :=
  result.set (weekday p.1)
    (result.getD (weekday p.1) [] ++ [interval p.2.start p.2.end_])

/-- `group_by_weekday` from utils.py: the items mapping is iterated in its
own order and each entry's interval is appended to its weekday's list. -/
def group_by_weekday (items : UserDays) : List (List Int) :=
  items.foldl gbwStep emptyWeek

/-- The initial `result = {i: {'start': [], 'end': []} for i in range(7)}`
of `mean_time_of_presence`, with weekday `i` at index `i`. -/
def emptyMtop : List (List Int × List Int) := List.replicate 7 ([], [])

/-- One iteration of `mean_time_of_presence`'s first loop: append
`seconds_since_midnight(start)` and `seconds_since_midnight(end)` to the
entry of the date's weekday. -/
def mtopStep (result : List (List Int × List Int)) (p : PDate × PresenceRec) :
    List (List Int × List Int) :=
  let w := weekday p.1
  let cur := result.getD w ([], [])
  result.set w (cur.1 ++ [seconds_since_midnight p.2.start],
                cur.2 ++ [seconds_since_midnight p.2.end_])

/-- `mean_time_of_presence` from utils.py: collect the per-weekday start and
end second lists, then replace each list by its `mean`.  The returned dict
`{0..6 → {'start': m, 'end': m}}` is the length-7 list indexed by weekday. -/
def mean_time_of_presence (items : UserDays) : List (ℚ × ℚ) :=
  (items.foldl mtopStep emptyMtop).map (fun q => (mean q.1, mean q.2))

/-- One `CACHE` slot: `{'time': now + duration, 'value': result}`. -/
structure CacheEntry (α : Type) where
  time : ℚ
  value : α
deriving DecidableEq, Repr

/-- The process-wide `CACHE` dict, keyed by wrapped-function name. -/
abbrev CacheMap (α : Type) : Type := List (String × CacheEntry α)

/-- One invocation of `__memoize` (utils.py lines 35-49) for the wrapped
`function`, with the timestamp `now = time()` read before the lock and the
`CACHE` store passed explicitly: return the stored value if
`key in CACHE and CACHE[key]['time'] > now`, else invoke `function`, store
`{'time': now + duration, 'value': result}` under `key = function.__name__`,
and return the fresh result. -/
def memoizeCall {α β : Type} (duration : ℚ) (key : String) (function : β → α)
    (cache : CacheMap α) (now : ℚ) (args : β) : α × CacheMap α :=
  match lookupA cache key with
  | some entry =>
      if entry.time > now then
        (entry.value, cache)
      else
        let result := function args
        (result, insertA cache key ⟨now + duration, result⟩)
  | none =>
      let result := function args
      (result, insertA cache key ⟨now + duration, result⟩)

/-- `__memoize` for a wrapped function that may raise (modelled by
`Except`): a raise inside `function(*args, **kwargs)` propagates out of the
`with lock` block before the `CACHE[key] = ...` assignment runs, so the
store is returned unchanged. -/
def memoizeCallE {α β ε : Type} (duration : ℚ) (key : String)
    (function : β → Except ε α) (cache : CacheMap α) (now : ℚ) (args : β) :
    Except ε α × CacheMap α :=
  match lookupA cache key with
  | some entry =>
      if entry.time > now then
        (.ok entry.value, cache)
      else
        match function args with
        | .error exc => (.error exc, cache)
        | .ok result => (.ok result, insertA cache key ⟨now + duration, result⟩)
  | none =>
      match function args with
      | .error exc => (.error exc, cache)
      | .ok result => (.ok result, insertA cache key ⟨now + duration, result⟩)

/-- Whether a `__memoize` invocation against store `cache` with pre-lock
timestamp `now` reaches the `function(*args, **kwargs)` line (a cache miss:
no entry, or entry already expired). -/
def invokesLoad {α : Type} (cache : CacheMap α) (key : String) (now : ℚ) :
    Bool :=
  match lookupA cache key with
  | some entry => decide (entry.time ≤ now)
  | none => true

/-- Serialized execution of several callers of the same wrapped function.
Each caller reads its timestamp before blocking on the per-function lock;
the lock makes the check-then-update sections atomic, so any concurrent
execution equals running them in lock-acquisition order.  Returns the value
each caller observes, the final store, and how many callers invoked the
wrapped function. -/
def runCallers {α β : Type} (duration : ℚ) (key : String) (function : β → α) :
    List (ℚ × β) → CacheMap α → List α × CacheMap α × Nat
  | [], cache => ([], cache, 0)
  | (now, args) :: rest, cache =>
      let this := memoizeCall duration key function cache now args
      let next := runCallers duration key function rest this.2
      (this.1 :: next.1, next.2.1,
        (if invokesLoad cache key now then 1 else 0) + next.2.2)

/-! Helper lemmas about list indexing, the dict model and the loop bodies. -/

lemma getD_set_self {α : Type} (l : List α) (i : Nat) (a d : α)
    (h : i < l.length) : (l.set i a).getD i d = a := by
  simp [List.getD_eq_getElem?_getD, List.getElem?_set_self, h]

lemma getD_set_ne {α : Type} (l : List α) (i j : Nat) (a d : α)
    (h : i ≠ j) : (l.set i a).getD j d = l.getD j d := by
  simp [List.getD_eq_getElem?_getD, List.getElem?_set_ne h]

lemma getD_map {α β : Type} (l : List α) (f : α → β) (i : Nat) (d : β) (e : α)
    (h : i < l.length) : (l.map f).getD i d = f (l.getD i e) := by
  simp [List.getD_eq_getElem?_getD, List.getElem?_map, List.getElem?_eq_getElem h]

lemma getD_replicate {α : Type} (i n : Nat) (x d : α) (h : i < n) :
    (List.replicate n x).getD i d = x := by
  simp [List.getD_eq_getElem?_getD, List.getElem?_replicate, h]

lemma weekday_lt (d : PDate) : weekday d < 7 :=
  Nat.mod_lt _ (by norm_num)

lemma lookupA_insertA_self {κ α : Type} [DecidableEq κ]
    (c : List (κ × α)) (k : κ) (v : α) :
    lookupA (insertA c k v) k = some v := by
  induction c with
  | nil => simp [insertA, lookupA]
  | cons p rest ih =>
      obtain ⟨k₁, v₁⟩ := p
      by_cases h : k₁ = k
      · simp [insertA, h, lookupA]
      · simp [insertA, h, lookupA, ih]

lemma countKey_cons {κ α : Type} [DecidableEq κ]
    (k₁ : κ) (v₁ : α) (rest : List (κ × α)) (k : κ) :
    countKey ((k₁, v₁) :: rest) k
      = countKey rest k + (if k₁ = k then 1 else 0) := by
  by_cases h : k₁ = k <;> simp [countKey, List.countP_cons, h]

lemma countKey_insertA {κ α : Type} [DecidableEq κ]
    (c : List (κ × α)) (k : κ) (v : α) (hc : countKey c k ≤ 1) :
    countKey (insertA c k v) k = 1 := by
  induction c with
  | nil => simp [insertA, countKey]
  | cons p rest ih =>
      obtain ⟨k₁, v₁⟩ := p
      rw [countKey_cons] at hc
      by_cases h : k₁ = k
      · rw [if_pos h] at hc
        have hrest : countKey rest k = 0 := by omega
        simp only [insertA, if_pos h]
        rw [countKey_cons, hrest, if_pos rfl]
      · rw [if_neg h] at hc
        simp only [insertA, if_neg h]
        rw [countKey_cons, ih (by omega), if_neg h]

lemma insertA_of_lookup_none {κ α : Type} [DecidableEq κ]
    (c : List (κ × α)) (k : κ) (v : α) (h : lookupA c k = none) :
    insertA c k v = c ++ [(k, v)] := by
  induction c with
  | nil => simp [insertA]
  | cons p rest ih =>
      obtain ⟨k₁, v₁⟩ := p
      by_cases hk : k₁ = k
      · simp [lookupA, hk] at h
      · simp [lookupA, hk] at h
        simp [insertA, hk, ih h]

lemma lookupA_append_of_none {κ α : Type} [DecidableEq κ]
    (l₁ l₂ : List (κ × α)) (k : κ) (h : lookupA l₁ k = none) :
    lookupA (l₁ ++ l₂) k = lookupA l₂ k := by
  induction l₁ with
  | nil => simp
  | cons p rest ih =>
      obtain ⟨k₁, v₁⟩ := p
      by_cases hk : k₁ = k
      · simp [lookupA, hk] at h
      · simp [lookupA, hk] at h ⊢
        exact ih h

lemma length_foldl_gbwStep (items : UserDays) :
    ∀ res : List (List Int), (items.foldl gbwStep res).length = res.length := by
  induction items with
  | nil => intro res; rfl
  | cons p rest ih =>
      intro res
      rw [List.foldl_cons, ih]
      simp [gbwStep]

lemma getD_gbwStep_self (res : List (List Int)) (p : PDate × PresenceRec)
    (hlen : res.length = 7) :
    (gbwStep res p).getD (weekday p.1) [] =
      res.getD (weekday p.1) [] ++ [interval p.2.start p.2.end_] := by
  exact getD_set_self _ _ _ _ (by rw [hlen]; exact weekday_lt p.1)

lemma getD_gbwStep_ne (res : List (List Int)) (p : PDate × PresenceRec)
    (i : Nat) (h : weekday p.1 ≠ i) :
    (gbwStep res p).getD i [] = res.getD i [] :=
  getD_set_ne _ _ _ _ _ h

lemma getD_foldl_gbwStep (items : UserDays) :
    ∀ res : List (List Int), res.length = 7 → ∀ i, i < 7 →
      (items.foldl gbwStep res).getD i [] =
        res.getD i [] ++
          (items.filter (fun p => weekday p.1 == i)).map
            (fun p => interval p.2.start p.2.end_) := by
  induction items with
  | nil => intro res hlen i hi; simp
  | cons p rest ih =>
      intro res hlen i hi
      rw [List.foldl_cons,
        ih (gbwStep res p) (by simp [gbwStep, hlen]) i hi, List.filter_cons]
      by_cases hw : weekday p.1 = i
      · subst hw
        rw [getD_gbwStep_self res p hlen]
        simp
      · have hbeq : (weekday p.1 == i) = false := by simp [hw]
        rw [hbeq, getD_gbwStep_ne res p i hw]
        simp

lemma sum_map_length_set (l : List (List Int)) :
    ∀ (i : Nat), i < l.length → ∀ (x : Int),
      ((l.set i (l.getD i [] ++ [x])).map List.length).sum
        = ((l.map List.length).sum) + 1 := by
  induction l with
  | nil => intro i hi; simp at hi
  | cons h t ih =>
      intro i hi x
      cases i with
      | zero => simp; omega
      | succ j =>
          have hj : j < t.length := by simpa using hi
          simp only [List.set, List.getD_cons_succ, List.map_cons,
            List.sum_cons, ih j hj x]
          omega

lemma sum_foldl_gbwStep (items : UserDays) :
    ∀ res : List (List Int), res.length = 7 →
      ((items.foldl gbwStep res).map List.length).sum
        = (res.map List.length).sum + items.length := by
  induction items with
  | nil => intro res hlen; simp
  | cons p rest ih =>
      intro res hlen
      rw [List.foldl_cons, ih _ (by simp [gbwStep, hlen])]
      have hstep : ((gbwStep res p).map List.length).sum
          = (res.map List.length).sum + 1 :=
        sum_map_length_set res (weekday p.1) (by rw [hlen]; exact weekday_lt p.1) _
      rw [hstep]
      simp
      omega

lemma length_foldl_mtopStep (items : UserDays) :
    ∀ res : List (List Int × List Int),
      (items.foldl mtopStep res).length = res.length := by
  induction items with
  | nil => intro res; rfl
  | cons p rest ih =>
      intro res
      rw [List.foldl_cons, ih]
      simp [mtopStep]

lemma mtopStep_eq (res : List (List Int × List Int)) (p : PDate × PresenceRec) :
    mtopStep res p =
      res.set (weekday p.1)
        ((res.getD (weekday p.1) ([], [])).1 ++ [seconds_since_midnight p.2.start],
         (res.getD (weekday p.1) ([], [])).2 ++ [seconds_since_midnight p.2.end_]) :=
  rfl

lemma getD_foldl_mtopStep (items : UserDays) :
    ∀ res : List (List Int × List Int), res.length = 7 → ∀ i, i < 7 →
      (items.foldl mtopStep res).getD i ([], []) =
        ((res.getD i ([], [])).1 ++
          (items.filter (fun p => weekday p.1 == i)).map
            (fun p => seconds_since_midnight p.2.start),
         (res.getD i ([], [])).2 ++
          (items.filter (fun p => weekday p.1 == i)).map
            (fun p => seconds_since_midnight p.2.end_)) := by
  induction items with
  | nil => intro res hlen i hi; simp
  | cons p rest ih =>
      intro res hlen i hi
      rw [List.foldl_cons,
        ih (mtopStep res p) (by simp [mtopStep, hlen]) i hi, List.filter_cons]
      by_cases hw : weekday p.1 = i
      · subst hw
        rw [mtopStep_eq, getD_set_self res (weekday p.1) _ _
          (by rw [hlen]; exact hi)]
        simp
      · have hbeq : (weekday p.1 == i) = false := by simp [hw]
        rw [hbeq, mtopStep_eq, getD_set_ne res (weekday p.1) i _ _ hw]
        simp

lemma get_data_xml_foldl (server : ServerInfo) (users : List XmlUser) :
    ∀ acc : List (Int × UserEntry),
      (∀ u ∈ users, lookupA acc u.id = none) →
      (users.map XmlUser.id).Nodup →
      users.foldl (fun result u =>
          insertA result u.id ⟨avatarFor server u, u.name⟩) acc
        = acc ++ users.map (fun u => (u.id, ⟨avatarFor server u, u.name⟩)) := by
  induction users with
  | nil => intro acc _ _; simp
  | cons u rest ih =>
      intro acc hacc hnd
      rw [List.foldl_cons,
        insertA_of_lookup_none acc u.id _ (hacc u (by simp))]
      rw [List.map_cons, List.nodup_cons] at hnd
      obtain ⟨hhead0, hnd'⟩ := hnd
      have hhead : ∀ w ∈ rest, u.id ≠ w.id := by
        intro w hw hEq
        exact hhead0 (hEq ▸ List.mem_map_of_mem XmlUser.id hw)
      have hacc' : ∀ w ∈ rest,
          lookupA (acc ++ [(u.id, (⟨avatarFor server u, u.name⟩ : UserEntry))]) w.id = none := by
        intro w hw
        rw [lookupA_append_of_none _ _ _ (hacc w (by simp [hw]))]
        simp [lookupA, hhead w hw]
      rw [ih _ hacc' hnd']
      simp

lemma getD_emptyWeek (i : Nat) : emptyWeek.getD i [] = [] := by
  rcases i with _ | _ | _ | _ | _ | _ | _ | i <;> simp [emptyWeek, List.getD]

lemma getD_emptyMtop (i : Nat) : emptyMtop.getD i ([], []) = ([], []) := by
  rcases i with _ | _ | _ | _ | _ | _ | _ | i <;>
    simp [emptyMtop, List.replicate, List.getD]

/-! Claim theorems. -/

/-- C1 (code bug): a 4-field row that fails to parse is NOT simply skipped.
The `except` branch of `get_data` lacks a `continue`, so the unconditional
store on line 105 still runs with the leftover variable values: after one
valid row, a row with an unparsable date adds a spurious entry pairing the
new user id with the previous row's date and times; and when the very first
4-field row is malformed, the store raises an uncaught `UnboundLocalError`
(not a `ValueError`/`TypeError`), aborting the whole load. -/
theorem get_data_malformed_row_not_skipped :
    get_data [["1", "2023-01-02", "09:00:00", "17:00:00"],
              ["2", "2023-13-40", "08:00:00", "16:00:00"]]
      = .ok [(1, [(⟨2023, 1, 2⟩, ⟨⟨9, 0, 0⟩, ⟨17, 0, 0⟩⟩)]),
             (2, [(⟨2023, 1, 2⟩, ⟨⟨9, 0, 0⟩, ⟨17, 0, 0⟩⟩)])]
    ∧ get_data [["x", "2023-01-02", "09:00:00", "17:00:00"]]
      = .error "UnboundLocalError" :=
  ⟨rfl, rfl⟩

/-- C5: `group_by_weekday` returns exactly 7 sequences indexed Monday = 0 to
Sunday = 6; bucket `i` receives, in input order, `interval(start, end)` of
exactly the entries whose date falls on weekday `i`; on the two-Monday
example the result is `[[28800, 30600], [], [], [], [], [], []]`. -/
theorem group_by_weekday_seven_ordered_buckets (items : UserDays) :
    (group_by_weekday items).length = 7
    ∧ (∀ i, i < 7 →
        (group_by_weekday items).getD i [] =
          (items.filter (fun p => weekday p.1 == i)).map
            (fun p => interval p.2.start p.2.end_))
    ∧ group_by_weekday
        [(⟨2023, 1, 2⟩, ⟨⟨9, 0, 0⟩, ⟨17, 0, 0⟩⟩),
         (⟨2023, 1, 9⟩, ⟨⟨9, 0, 0⟩, ⟨17, 30, 0⟩⟩)]
      = [[28800, 30600], [], [], [], [], [], []] := by
  refine ⟨?_, ?_, by decide⟩
  · show (items.foldl gbwStep emptyWeek).length = 7
    rw [length_foldl_gbwStep]
    rfl
  · intro i hi
    show (items.foldl gbwStep emptyWeek).getD i [] = _
    rw [getD_foldl_gbwStep items emptyWeek rfl i hi, getD_emptyWeek]
    simp

/-- Witness for C5 at a concrete input and weekday index. -/
theorem group_by_weekday_seven_ordered_buckets_witness :
    (group_by_weekday [(⟨2023, 1, 2⟩, ⟨⟨9, 0, 0⟩, ⟨17, 0, 0⟩⟩)]).getD 0 [] =
      ([((⟨2023, 1, 2⟩ : PDate), (⟨⟨9, 0, 0⟩, ⟨17, 0, 0⟩⟩ : PresenceRec))].filter
          (fun p => weekday p.1 == 0)).map
        (fun p => interval p.2.start p.2.end_) :=
  (group_by_weekday_seven_ordered_buckets _).2.1 0 (by decide)

/-- C10: `group_by_weekday` distributes its input without loss or
duplication: 7 buckets, the total number of intervals over them equals the
number of input entries, and bucket `i` holds exactly the intervals of the
entries whose date's weekday is `i`. -/
theorem group_by_weekday_partitions_input (items : UserDays) :
    (group_by_weekday items).length = 7
    ∧ ((group_by_weekday items).map List.length).sum = items.length
    ∧ ∀ i, i < 7 →
        (group_by_weekday items).getD i [] =
          (items.filter (fun p => weekday p.1 == i)).map
            (fun p => interval p.2.start p.2.end_) := by
  refine ⟨?_, ?_, ?_⟩
  · show (items.foldl gbwStep emptyWeek).length = 7
    rw [length_foldl_gbwStep]
    rfl
  · show ((items.foldl gbwStep emptyWeek).map List.length).sum = items.length
    rw [sum_foldl_gbwStep items emptyWeek rfl]
    simp [emptyWeek]
  · intro i hi
    show (items.foldl gbwStep emptyWeek).getD i [] = _
    rw [getD_foldl_gbwStep items emptyWeek rfl i hi, getD_emptyWeek]
    simp

/-- Witness for C10 at a concrete input and weekday index. -/
theorem group_by_weekday_partitions_input_witness :
    (group_by_weekday ([] : UserDays)).getD 1 [] =
      (([] : UserDays).filter (fun p => weekday p.1 == 1)).map
        (fun p => interval p.2.start p.2.end_) :=
  (group_by_weekday_partitions_input []).2.2 1 (by decide)

/-- C6: `mean_time_of_presence` maps every weekday index 0..6 to the
arithmetic mean of the seconds-since-midnight of the start values and of the
end values observed on that weekday (0 and 0 when the weekday has no data);
the single-Monday example yields start 32400 and end 61200 at index 0 and
zeros at indices 1..6; `mean` of the empty sequence is 0 and
`mean [10, 20, 30] = 20`. -/
theorem mean_time_of_presence_weekday_means (items : UserDays) :
    (mean_time_of_presence items).length = 7
    ∧ (∀ i, i < 7 →
        (mean_time_of_presence items).getD i (0, 0) =
          (mean ((items.filter (fun p => weekday p.1 == i)).map
              (fun p => seconds_since_midnight p.2.start)),
           mean ((items.filter (fun p => weekday p.1 == i)).map
              (fun p => seconds_since_midnight p.2.end_))))
    ∧ mean_time_of_presence [(⟨2023, 1, 2⟩, ⟨⟨9, 0, 0⟩, ⟨17, 0, 0⟩⟩)]
        = [(32400, 61200), (0, 0), (0, 0), (0, 0), (0, 0), (0, 0), (0, 0)]
    ∧ mean [] = 0
    ∧ mean [10, 20, 30] = 20 := by
  refine ⟨?_, ?_, ?_, by simp [mean], by norm_num [mean]⟩
  · show ((items.foldl mtopStep emptyMtop).map
      (fun q => (mean q.1, mean q.2))).length = 7
    rw [List.length_map, length_foldl_mtopStep]
    rfl
  · intro i hi
    show ((items.foldl mtopStep emptyMtop).map
        (fun q => (mean q.1, mean q.2))).getD i (0, 0) = _
    have hlen : i < (items.foldl mtopStep emptyMtop).length := by
      rw [length_foldl_mtopStep]
      exact hi
    rw [getD_map _ _ i (0, 0) ([], []) hlen,
      getD_foldl_mtopStep items emptyMtop rfl i hi, getD_emptyMtop]
    simp
  · have hw : weekday ⟨2023, 1, 2⟩ = 0 := by decide
    simp [mean_time_of_presence, mtopStep, emptyMtop, hw, mean,
      seconds_since_midnight, List.replicate]

/-- Witness for C6 at a concrete input and weekday index. -/
theorem mean_time_of_presence_weekday_means_witness :
    (mean_time_of_presence ([] : UserDays)).getD 3 (0, 0) =
      (mean ((([] : UserDays).filter (fun p => weekday p.1 == 3)).map
          (fun p => seconds_since_midnight p.2.start)),
       mean ((([] : UserDays).filter (fun p => weekday p.1 == 3)).map
          (fun p => seconds_since_midnight p.2.end_))) :=
  (mean_time_of_presence_weekday_means []).2.1 3 (by decide)

/-- C7: `interval(start, end)` equals
`seconds_since_midnight(end) - seconds_since_midnight(start)` for every pair
of times of day, and it is negative whenever the end time precedes the start
time — never clamped or rejected. -/
theorem interval_is_signed_difference :
    (∀ start end_ : PTime,
        interval start end_ =
          seconds_since_midnight end_ - seconds_since_midnight start)
    ∧ ∀ start end_ : PTime,
        seconds_since_midnight end_ < seconds_since_midnight start →
          interval start end_ < 0 := by
  constructor
  · intro s e
    rfl
  · intro s e hlt
    simp only [interval]
    omega

/-- Witness for C7: an end-before-start pair yields a negative interval. -/
theorem interval_is_signed_difference_witness :
    seconds_since_midnight ⟨9, 0, 0⟩ < seconds_since_midnight ⟨17, 0, 0⟩
    ∧ interval ⟨17, 0, 0⟩ ⟨9, 0, 0⟩ < 0 :=
  ⟨by decide, interval_is_signed_difference.2 ⟨17, 0, 0⟩ ⟨9, 0, 0⟩ (by decide)⟩

/-- C8: for a well-formed directory document (each user element with a
distinct integer id), `get_data_xml` records each user's name and the
avatar URL `protocol + '://' + host + ':' + port` concatenated with the
user's avatar path fragment under the integer-parsed id; with protocol
http, host example.com, port 80 and fragment `/api/images/users/1` the URL
is `http://example.com:80/api/images/users/1`. -/
theorem get_data_xml_records_users (server : ServerInfo) (users : List XmlUser)
    (hnd : (users.map XmlUser.id).Nodup) :
    get_data_xml server users
      = users.map (fun u => (u.id, ⟨avatarFor server u, u.name⟩))
    ∧ avatarFor ⟨"http", "example.com", "80"⟩ ⟨1, "Jan K.", "/api/images/users/1"⟩
      = "http://example.com:80/api/images/users/1" := by
  constructor
  · show users.foldl _ [] = _
    rw [get_data_xml_foldl server users []
      (by intro u _; rfl) hnd]
    simp
  · rfl

/-- Witness for C8 on a one-user directory document. -/
theorem get_data_xml_records_users_witness :
    get_data_xml ⟨"http", "example.com", "80"⟩ [⟨1, "Jan K.", "/api/images/users/1"⟩]
      = [(⟨1, "Jan K.", "/api/images/users/1"⟩ : XmlUser)].map
          (fun u => (u.id,
            ⟨avatarFor ⟨"http", "example.com", "80"⟩ u, u.name⟩))
    ∧ avatarFor ⟨"http", "example.com", "80"⟩ ⟨1, "Jan K.", "/api/images/users/1"⟩
      = "http://example.com:80/api/images/users/1" :=
  get_data_xml_records_users ⟨"http", "example.com", "80"⟩
    [⟨1, "Jan K.", "/api/images/users/1"⟩] (by simp)

/-- C2: a memoized call returns the stored value while the stored timestamp
is strictly greater than `now`; otherwise it invokes the wrapped function,
stores `{time: now + duration, value: result}` under the function's key
(keeping exactly one cache entry for it) and returns the fresh result; a
second call within the validity window returns the identical value with no
second load (the value does not depend on the function body `g` passed
then), and a call at or after expiry triggers exactly one reload. -/
theorem memoize_window_semantics {α β : Type} (d : ℚ) (k : String)
    (f g h : β → α) (c₀ : CacheMap α) (t₀ t₁ t₂ : ℚ) (a₀ a₁ a₂ : β)
    (hmiss : ∀ e, lookupA c₀ k = some e → e.time ≤ t₀)
    (hcnt : countKey c₀ k ≤ 1)
    (hwin : t₁ < t₀ + d)
    (hafter : t₀ + d ≤ t₂) :
    (∀ (c : CacheMap α) (e : CacheEntry α) (t : ℚ) (x : β),
        lookupA c k = some e → e.time > t →
        memoizeCall d k f c t x = (e.value, c))
    ∧ memoizeCall d k f c₀ t₀ a₀ = (f a₀, insertA c₀ k ⟨t₀ + d, f a₀⟩)
    ∧ countKey (insertA c₀ k ⟨t₀ + d, f a₀⟩) k = 1
    ∧ memoizeCall d k g (insertA c₀ k ⟨t₀ + d, f a₀⟩) t₁ a₁
        = (f a₀, insertA c₀ k ⟨t₀ + d, f a₀⟩)
    ∧ memoizeCall d k h (insertA c₀ k ⟨t₀ + d, f a₀⟩) t₂ a₂
        = (h a₂, insertA (insertA c₀ k ⟨t₀ + d, f a₀⟩) k ⟨t₂ + d, h a₂⟩) := by
  refine ⟨?_, ?_, countKey_insertA c₀ k _ hcnt, ?_, ?_⟩
  · intro c e t x hl ht
    simp [memoizeCall, hl, ht]
  · cases hc : lookupA c₀ k with
    | none => simp [memoizeCall, hc]
    | some e =>
        have hn : ¬ e.time > t₀ := not_lt.mpr (hmiss e hc)
        simp [memoizeCall, hc, hn]
  · simp [memoizeCall, lookupA_insertA_self, hwin]
  · have hn : ¬ ((t₀ + d : ℚ) > t₂) := not_lt.mpr hafter
    simp [memoizeCall, lookupA_insertA_self, hn]

/-- Witness for C2 on a concrete cache scenario. -/
theorem memoize_window_semantics_witness :
    ((∀ (c : CacheMap Nat) (e : CacheEntry Nat) (t : ℚ) (x : Nat),
        lookupA c "get_data" = some e → e.time > t →
        memoizeCall 600 "get_data" (fun n => n + 1) c t x = (e.value, c))
    ∧ memoizeCall 600 "get_data" (fun n => n + 1) [] 0 1
        = (2, insertA [] "get_data" ⟨0 + 600, 2⟩)
    ∧ countKey (insertA ([] : CacheMap Nat) "get_data" ⟨0 + 600, 2⟩) "get_data" = 1
    ∧ memoizeCall 600 "get_data" (fun n => n + 5)
        (insertA [] "get_data" ⟨0 + 600, 2⟩) 599 7
        = (2, insertA [] "get_data" ⟨0 + 600, 2⟩)
    ∧ memoizeCall 600 "get_data" (fun n => n + 9)
        (insertA [] "get_data" ⟨0 + 600, 2⟩) 600 3
        = (3 + 9, insertA (insertA [] "get_data" ⟨0 + 600, 2⟩) "get_data"
            ⟨600 + 600, 3 + 9⟩)) :=
  memoize_window_semantics 600 "get_data"
    (fun n => n + 1) (fun n => n + 5) (fun n => n + 9) [] 0 599 600 1 7 3
    (by intro e he; simp [lookupA] at he)
    (by simp [countKey])
    (by norm_num)
    (by norm_num)

/-- C3: when the wrapped loader raises, the exception propagates to the
caller and the cache entry is left unchanged — no error state is cached —
so a later call (still finding no valid entry) attempts a fresh reload and
caches its successful result. -/
theorem memoize_error_propagates_uncached {α β ε : Type} (d : ℚ) (k : String)
    (f f₂ : β → Except ε α) (c₀ : CacheMap α) (t₀ t₁ : ℚ) (a₀ a₁ : β)
    (exc : ε) (v : α)
    (hmiss₀ : ∀ e, lookupA c₀ k = some e → e.time ≤ t₀)
    (hmiss₁ : ∀ e, lookupA c₀ k = some e → e.time ≤ t₁)
    (hf : f a₀ = .error exc) (hf₂ : f₂ a₁ = .ok v) :
    memoizeCallE d k f c₀ t₀ a₀ = (.error exc, c₀)
    ∧ memoizeCallE d k f₂ c₀ t₁ a₁ = (.ok v, insertA c₀ k ⟨t₁ + d, v⟩) := by
  constructor
  · cases hc : lookupA c₀ k with
    | none => simp [memoizeCallE, hc, hf]
    | some e =>
        have hn : ¬ e.time > t₀ := not_lt.mpr (hmiss₀ e hc)
        simp [memoizeCallE, hc, hn, hf]
  · cases hc : lookupA c₀ k with
    | none => simp [memoizeCallE, hc, hf₂]
    | some e =>
        have hn : ¬ e.time > t₁ := not_lt.mpr (hmiss₁ e hc)
        simp [memoizeCallE, hc, hn, hf₂]

/-- Witness for C3: a failing load propagates and leaves the cache empty;
the next call reloads successfully. -/
theorem memoize_error_propagates_uncached_witness :
    memoizeCallE 600 "get_data" (fun _ : Nat => (.error "IOError" : Except String Nat))
        [] 0 1
      = (.error "IOError", [])
    ∧ memoizeCallE 600 "get_data" (fun n : Nat => (.ok (n + 1) : Except String Nat))
        [] 5 1
      = (.ok 2, insertA [] "get_data" ⟨5 + 600, 2⟩) :=
  memoize_error_propagates_uncached 600 "get_data" _ _ [] 0 5 1 1 "IOError" 2
    (by intro e he; simp [lookupA] at he)
    (by intro e he; simp [lookupA] at he)
    rfl rfl

/-- C4: the per-wrapped-function lock serializes each caller's
check-then-update section, so two callers racing past the expiry of the
same function's entry (each having read its timestamp before acquiring the
lock) produce exactly one invocation of the wrapped function: whichever
caller enters first recomputes and stores, and the other observes the same
value from the cache without reloading. -/
theorem memoize_lock_serializes_single_reload {α β : Type} (d : ℚ)
    (k : String) (f : β → α) (c₀ : CacheMap α) (t₁ t₂ : ℚ) (a₁ a₂ : β)
    (hexp : ∀ e, lookupA c₀ k = some e → e.time ≤ t₁)
    (hrace : t₂ < t₁ + d) :
    runCallers d k f [(t₁, a₁), (t₂, a₂)] c₀
      = ([f a₁, f a₁], insertA c₀ k ⟨t₁ + d, f a₁⟩, 1) := by
  have h1 : memoizeCall d k f c₀ t₁ a₁ = (f a₁, insertA c₀ k ⟨t₁ + d, f a₁⟩) := by
    cases hc : lookupA c₀ k with
    | none => simp [memoizeCall, hc]
    | some e =>
        have hn : ¬ e.time > t₁ := not_lt.mpr (hexp e hc)
        simp [memoizeCall, hc, hn]
  have hinv1 : invokesLoad c₀ k t₁ = true := by
    cases hc : lookupA c₀ k with
    | none => simp [invokesLoad, hc]
    | some e => simp [invokesLoad, hc, hexp e hc]
  have h2 : memoizeCall d k f (insertA c₀ k ⟨t₁ + d, f a₁⟩) t₂ a₂
      = (f a₁, insertA c₀ k ⟨t₁ + d, f a₁⟩) := by
    simp [memoizeCall, lookupA_insertA_self, hrace]
  have hinv2 : invokesLoad (insertA c₀ k ⟨t₁ + d, f a₁⟩) k t₂ = false := by
    simp [invokesLoad, lookupA_insertA_self]
    exact hrace
  simp [runCallers, h1, h2, hinv1, hinv2]

/-- Witness for C4: two concrete callers racing on an empty cache. -/
theorem memoize_lock_serializes_single_reload_witness :
    runCallers 600 "get_data" (fun n : Nat => n + 1) [(0, 1), (1, 2)] []
      = ([2, 2], insertA [] "get_data" ⟨0 + 600, 2⟩, 1) :=
  memoize_lock_serializes_single_reload 600 "get_data" (fun n => n + 1)
    [] 0 1 1 2
    (by intro e he; simp [lookupA] at he)
    (by norm_num)

/-- C9: the cache key carries only the wrapped function's name, never the
call arguments: within one validity window every call — with any arguments
`x`, even through a different function body `g` under the same name —
returns the value computed from the arguments of the call that populated
the entry. -/
theorem memoize_key_ignores_arguments {α β : Type} (d : ℚ) (k : String)
    (f : β → α) (c₀ : CacheMap α) (t₀ t₁ : ℚ) (a₀ : β)
    (hmiss : ∀ e, lookupA c₀ k = some e → e.time ≤ t₀)
    (hwin : t₁ < t₀ + d) :
    ∀ (g : β → α) (x : β),
      memoizeCall d k g (memoizeCall d k f c₀ t₀ a₀).2 t₁ x
        = (f a₀, (memoizeCall d k f c₀ t₀ a₀).2) := by
  intro g x
  have h1 : (memoizeCall d k f c₀ t₀ a₀).2 = insertA c₀ k ⟨t₀ + d, f a₀⟩ := by
    cases hc : lookupA c₀ k with
    | none => simp [memoizeCall, hc]
    | some e =>
        have hn : ¬ e.time > t₀ := not_lt.mpr (hmiss e hc)
        simp [memoizeCall, hc, hn]
  rw [h1]
  simp [memoizeCall, lookupA_insertA_self, hwin]

/-- Witness for C9: a second call with different arguments and a different
body still returns the populating call's value. -/
theorem memoize_key_ignores_arguments_witness :
    memoizeCall 600 "get_data" (fun n : Nat => n * 10)
        (memoizeCall 600 "get_data" (fun n : Nat => n + 1) [] 0 1).2 599 5
      = (2, (memoizeCall 600 "get_data" (fun n : Nat => n + 1) [] 0 1).2) :=
  memoize_key_ignores_arguments 600 "get_data" (fun n => n + 1) [] 0 599 1
    (by intro e he; simp [lookupA] at he)
    (by norm_num)
    (fun n => n * 10) 5

end PresenceAnalyzer
